import Mathlib

/-!
Mixxx effects manager and echo state: a shallow embedding.

The definitions below follow `src/effects/effectsmanager.cpp` and
`src/effects/backends/builtin/echoeffect.h`.  Qt containers become lists,
`QString` becomes an optional string (its null state is observable), heap objects
live in an explicit object store, and an out-of-range `QList::at` is an explicit
fault.
-/

namespace Mixxx

/-! ## Qt value types -/

/-- A `QString`: `none` is the null string `QString()`, `some s` a non-null string
with content `s` (so `some ""` is the empty, non-null string). -/
abbrev QString := Option String

/-- The characters of a `QString`; the null string has none. -/
def QString.chars (s : QString) : List Char :=
  match s with
  | none => []
  | some t => t.data

/-- The member `QString::isNull`. -/
def QString.isNull (s : QString) : Bool :=
  match s with
  | none => true
  | some _ => false

/-- Comparison `operator==` on `QString`: it compares the characters only, so the null
string and the empty string are equal. -/
def QString.eq (a b : QString) : Bool :=
  decide (a.chars = b.chars)

/-- The only failure the embedded code can run into: `QList::at` (or `first`,
`last`) with an index outside the list. -/
inductive Fault where
  | indexOutOfRange
deriving DecidableEq, Repr

deriving instance DecidableEq for Except

/-- The member `QList::at(i)` for an `int` index: the element when `0 <= i < size()`, a fault
otherwise. -/
def QList.at {α : Type} (l : List α) (i : Int) : Except Fault α :=
  if 0 ≤ i ∧ i < (l.length : Int) then
    match l.get? i.toNat with
    | some x => Except.ok x
    | none => Except.error Fault.indexOutOfRange
  else
    Except.error Fault.indexOutOfRange

/-- The member `QList::insert(before, value)` with the position given as an offset
from `begin()`. -/
def QList.insertAt {α : Type} (l : List α) (pos : Nat) (value : α) : List α :=
  l.take pos ++ value :: l.drop pos

/-- A `QSet` is kept as the list of its members in insertion order;
`QSet::contains`. -/
def QSet.contains {α : Type} [DecidableEq α] (s : List α) (x : α) : Bool :=
  decide (x ∈ s)

/-- The member `QSet::insert`: a value that is already a member is not added again. -/
def QSet.insert {α : Type} [DecidableEq α] (s : List α) (x : α) : List α :=
  if QSet.contains s x then s else s ++ [x]

/-- A string-keyed `QHash` is kept as an association list; keys are compared with
`operator==` of `QString`.  This is `QHash::contains`. -/
def QHash.contains {V : Type} (h : List (QString × V)) (key : QString) : Bool :=
  h.any (fun kv => QString.eq kv.1 key)

/-- The member `QHash::value(key)` for pointer values: the stored pointer, or the
default-constructed (null) pointer `none` when the key is absent. -/
def QHash.value {V : Type} (h : List (QString × V)) (key : QString) : Option V :=
  match h.find? (fun kv => QString.eq kv.1 key) with
  | some kv => some kv.2
  | none => none

/-- The member `QHash::insert(key, value)`: the value of an existing key is
replaced, a new key is added. -/
def QHash.insert {V : Type} (h : List (QString × V)) (key : QString) (v : V) :
    List (QString × V) :=
  if QHash.contains h key then
    h.map (fun kv => if QString.eq kv.1 key then (kv.1, v) else kv)
  else
    h ++ [(key, v)]

/-- The member `QString::split(sep)` for a one-character separator, on the
characters of the string; empty parts are kept, so a string without the
separator gives exactly one part. -/
def splitChars (sep : Char) : List Char → List (List Char)
  | [] => [[]]
  | c :: cs =>
    if c = sep then
      [] :: splitChars sep cs
    else
      match splitChars sep cs with
      | [] => [[c]]
      | part :: parts => (c :: part) :: parts

/-- The separator `kEffectGroupSeparator = "_"`. -/
def kEffectGroupSeparator : Char := '_'

/-- The closing bracket `kGroupClose = "]"`. -/
def kGroupClose : Char := ']'

/-- The text of `cap(1)` after `QRegExp(".*(\\d+).*").indexIn(s)`.  The pattern
is built in the default syntax `QRegExp::RegExp`, whose matcher, where several
ways of matching meet, keeps the capture that starts earliest and, among those,
the one that ends latest.  The group therefore starts at the first digit of `s`
and runs to the end of that run of digits: it holds the first number in `s`.
Without any digit the pattern does not match and `cap(1)` is empty.  Digits are
the decimal digits `0` to `9`. -/
def intRegExCap1 (s : List Char) : List Char :=
  (s.dropWhile (fun c => !c.isDigit)).takeWhile Char.isDigit

/-- Value of a string of decimal digits, most significant digit first. -/
def decimalValue (digits : List Char) : Nat :=
  digits.foldl (fun acc d => 10 * acc + (d.toNat - '0'.toNat)) 0

/-- The member `QString::toInt()` on the texts a `\d+` group can hold: a non-empty
digit string that fits an `int` gives its value, anything else (the empty string
of a failed match in particular) gives 0. -/
def toInt (s : List Char) : Int :=
  if s ≠ [] ∧ s.all Char.isDigit ∧ decimalValue s < 2 ^ 31 then (decimalValue s : Int)
  else 0

/-! ## The manager state -/

/-- The members of `EffectsManager` that the embedded functions read or write.
Chain slots are heap objects shared between several containers, so the objects
themselves live in `chainSlotObjects` and the containers hold addresses (offsets
into that store); a null pointer is `none`.  `P` is the type of manifest pointers
(compared by address), `C` is `ChannelHandleAndGroup`, `S` the state of a chain
slot object. -/
structure EffectsManager (P C S : Type) where
  m_visibleEffectManifests : List P
  m_registeredInputChannels : List C
  m_registeredOutputChannels : List C
  m_standardEffectChainSlots : List Nat
  m_outputEffectChainSlot : Option Nat
  m_equalizerEffectChainSlots : List (QString × Nat)
  m_quickEffectChainSlots : List (QString × Nat)
  m_effectChainSlotsByGroup : List (QString × Nat)
  chainSlotObjects : List S
deriving DecidableEq, Repr

/-- The chain slot classes (`effectchainslot.h` and its subclasses) are defined
in other translation units; the manager only calls into them.  Their members
enter as parameters: `group` is `EffectChainSlot::group()`, `registerInputChannel`
and `getEffectSlot` the members of those names, `newStandard`, `newOutput`,
`newEqualizer`, `newQuick` the constructors, the `format...` fields the static
`formatEffectChainSlotGroup` functions, and `kNumStandardEffectChains` the
constant of that name.  `E` is the type of non-null effect slot pointers. -/
structure ChainSlotClasses (C S E : Type) where
  group : S → QString
  registerInputChannel : S → C → S
  getEffectSlot : S → Int → Option E
  newStandard : Int → S
  newOutput : S
  newEqualizer : QString → S
  newQuick : QString → S
  formatStandard : Int → QString
  formatEqualizer : QString → QString
  formatQuick : QString → QString
  kNumStandardEffectChains : Nat

/-- A manager right after construction: every container is empty. -/
def EffectsManager.init (P C S : Type) : EffectsManager P C S :=
  { m_visibleEffectManifests := []
    m_registeredInputChannels := []
    m_registeredOutputChannels := []
    m_standardEffectChainSlots := []
    m_outputEffectChainSlot := none
    m_equalizerEffectChainSlots := []
    m_quickEffectChainSlots := []
    m_effectChainSlotsByGroup := []
    chainSlotObjects := [] }

/-- Allocation `new T(...)`: the object is put at the end of the store and its
address returned. -/
def allocChainSlot {S : Type} (store : List S) (obj : S) : List S × Nat :=
  (store ++ [obj], store.length)

/-- Apply `f` to the object at address `addr`, leaving the others alone. -/
def updateObject {S : Type} (f : S → S) : List S → Nat → List S
  | [], _ => []
  | x :: xs, 0 => f x :: xs
  | x :: xs, addr + 1 => x :: updateObject f xs addr

/-! ## Cycling through the visible effects -/

/-- The search loop shared by `getNextEffectId` and `getPrevEffectId`:
`for (index = 0; index < size; ++index) if (effectId == at(index)->id()) break;`.
The value is `index` on leaving the loop: the first matching position, or the
size of the list when nothing matches. -/
def findEffectIndex {P : Type} (manifestId : P → QString) (effectId : QString) :
    List P → Nat
  | [] => 0
  | p :: rest =>
    if QString.eq effectId (manifestId p) then 0
    else findEffectIndex manifestId effectId rest + 1

/-- The function `EffectsManager::getNextEffectId`; `manifestId p` is `p->id()`. -/
def getNextEffectId {P C S : Type} (manifestId : P → QString)
    (m : EffectsManager P C S) (effectId : QString) : Except Fault QString :=
  if m.m_visibleEffectManifests.isEmpty then
    Except.ok none
  else if effectId.isNull then
    (QList.at m.m_visibleEffectManifests 0).map manifestId
  else
    let index : Int := findEffectIndex manifestId effectId m.m_visibleEffectManifests
    let index := index + 1
    let index := if index ≥ (m.m_visibleEffectManifests.length : Int) then 0 else index
    (QList.at m.m_visibleEffectManifests index).map manifestId

/-- The function `EffectsManager::getPrevEffectId`. -/
def getPrevEffectId {P C S : Type} (manifestId : P → QString)
    (m : EffectsManager P C S) (effectId : QString) : Except Fault QString :=
  if m.m_visibleEffectManifests.isEmpty then
    Except.ok none
  else if effectId.isNull then
    (QList.at m.m_visibleEffectManifests
      ((m.m_visibleEffectManifests.length : Int) - 1)).map manifestId
  else
    let index : Int := findEffectIndex manifestId effectId m.m_visibleEffectManifests
    let index := index - 1
    let index :=
      if index < 0 then (m.m_visibleEffectManifests.length : Int) - 1 else index
    (QList.at m.m_visibleEffectManifests index).map manifestId

/-! ## The sorted list of visible effects -/

/-- The loop of `std::lower_bound(first, last, value, comp)` on a random-access
range, positions counted from `begin()`:
`while (len > 0) { half = len >> 1; middle = first + half;
if (comp(*middle, value)) { first = middle + 1; len = len - half - 1; } else len = half; }`.
The first argument bounds the number of rounds; `len` shrinks in every round. -/
def lowerBoundLoop {P : Type} (comp : P → P → Bool) (l : List P) (value : P) :
    Nat → Nat → Nat → Nat
  | 0, first, _ => first
  | rounds + 1, first, len =>
    if len = 0 then first
    else
      let half := len / 2
      let middle := first + half
      match l.get? middle with
      | none => first
      | some x =>
        if comp x value then lowerBoundLoop comp l value rounds (middle + 1) (len - half - 1)
        else lowerBoundLoop comp l value rounds first half

/-- The call `std::lower_bound(l.begin(), l.end(), value, comp)`. -/
def lower_bound {P : Type} (comp : P → P → Bool) (l : List P) (value : P) : Nat :=
  lowerBoundLoop comp l value l.length 0 l.length

/-- The function `EffectsManager::setEffectVisibility`; `alphabetize` is
`EffectManifest::alphabetize`, `contains` and `removeOne` compare the manifest
pointers.  The signal `visibleEffectsUpdated` is not part of the state. -/
def setEffectVisibility {P C S : Type} [DecidableEq P] (alphabetize : P → P → Bool)
    (m : EffectsManager P C S) (pManifest : P) (visible : Bool) : EffectsManager P C S :=
  if visible && !(decide (pManifest ∈ m.m_visibleEffectManifests)) then
    let insertion_point := lower_bound alphabetize m.m_visibleEffectManifests pManifest
    { m with m_visibleEffectManifests :=
        QList.insertAt m.m_visibleEffectManifests insertion_point pManifest }
  else if !visible then
    { m with m_visibleEffectManifests := m.m_visibleEffectManifests.erase pManifest }
  else
    m

/-- The function `EffectsManager::getEffectVisibility`. -/
def getEffectVisibility {P C S : Type} [DecidableEq P]
    (m : EffectsManager P C S) (pManifest : P) : Bool :=
  decide (pManifest ∈ m.m_visibleEffectManifests)

/-- A range is sorted for `comp` in the sense of `std::is_sorted`: no element is
`comp`-less than its predecessor. -/
def IsSortedBy {P : Type} (comp : P → P → Bool) (l : List P) : Prop :=
  l.Chain' (fun a b => comp b a = false)

/-- The requirements on a comparison object (a strict weak ordering):
irreflexive, transitive, and with a transitive incomparability relation. -/
structure StrictWeakOrdering {P : Type} (comp : P → P → Bool) : Prop where
  irrefl : ∀ a, comp a a = false
  trans : ∀ a b c, comp a b = true → comp b c = true → comp a c = true
  incomp_trans : ∀ a b c, comp a b = false → comp b a = false →
    comp b c = false → comp c b = false → comp a c = false ∧ comp c a = false

/-! ## Channels and chain slots -/

/-- Modelled from the spec: the macro `VERIFY_OR_DEBUG_ASSERT(cond) { block }` of
`util/assert.h`, whose definition is outside this development.  The spec calls
it an assertion-style check that degrades to a no-op in release builds: the
block runs exactly when the condition is false, and nothing else happens.  The
value says whether the block runs. -/
def VERIFY_OR_DEBUG_ASSERT (cond : Bool) : Bool :=
  !cond

/-- The function `EffectsManager::registerInputChannel`. -/
def registerInputChannel {P C S E : Type} [DecidableEq C] (K : ChainSlotClasses C S E)
    (m : EffectsManager P C S) (handle_group : C) : EffectsManager P C S :=
  if VERIFY_OR_DEBUG_ASSERT (!(QSet.contains m.m_registeredInputChannels handle_group)) then
    m
  else
    { m with
      m_registeredInputChannels := QSet.insert m.m_registeredInputChannels handle_group
      chainSlotObjects :=
        m.m_standardEffectChainSlots.foldl
          (fun store pChainSlot =>
            updateObject (fun obj => K.registerInputChannel obj handle_group) store pChainSlot)
          m.chainSlotObjects }

/-- The function `EffectsManager::registerOutputChannel`. -/
def registerOutputChannel {P C S : Type} [DecidableEq C]
    (m : EffectsManager P C S) (handle_group : C) : EffectsManager P C S :=
  if VERIFY_OR_DEBUG_ASSERT (!(QSet.contains m.m_registeredOutputChannels handle_group)) then
    m
  else
    { m with
      m_registeredOutputChannels := QSet.insert m.m_registeredOutputChannels handle_group }

/-- One round of the loop in `addStandardEffectChainSlots`, for the index `i`. -/
def addStandardEffectChainSlot {P C S E : Type} (K : ChainSlotClasses C S E)
    (m : EffectsManager P C S) (i : Nat) : EffectsManager P C S :=
  if VERIFY_OR_DEBUG_ASSERT
      (!(QHash.contains m.m_effectChainSlotsByGroup (K.formatStandard i))) then
    m
  else
    let obj := K.newStandard i
    let (store, pChainSlot) := allocChainSlot m.chainSlotObjects obj
    { m with
      chainSlotObjects := store
      m_standardEffectChainSlots := m.m_standardEffectChainSlots ++ [pChainSlot]
      m_effectChainSlotsByGroup :=
        QHash.insert m.m_effectChainSlotsByGroup (K.group obj) pChainSlot }

/-- The function `EffectsManager::addStandardEffectChainSlots`. -/
def addStandardEffectChainSlots {P C S E : Type} (K : ChainSlotClasses C S E)
    (m : EffectsManager P C S) : EffectsManager P C S :=
  (List.range K.kNumStandardEffectChains).foldl (addStandardEffectChainSlot K) m

/-- The function `EffectsManager::addOutputEffectChainSlot`. -/
def addOutputEffectChainSlot {P C S E : Type} (K : ChainSlotClasses C S E)
    (m : EffectsManager P C S) : EffectsManager P C S :=
  let obj := K.newOutput
  let (store, pChainSlot) := allocChainSlot m.chainSlotObjects obj
  { m with
    chainSlotObjects := store
    m_outputEffectChainSlot := some pChainSlot
    m_effectChainSlotsByGroup :=
      QHash.insert m.m_effectChainSlotsByGroup (K.group obj) pChainSlot }

/-- The function `EffectsManager::getOutputEffectChainSlot`. -/
def getOutputEffectChainSlot {P C S : Type} (m : EffectsManager P C S) : Option Nat :=
  m.m_outputEffectChainSlot

/-- The function `EffectsManager::getStandardEffectChainSlot`.  The guard is the
condition as written, `0 <= unitNumber || unitNumber < size()`; its block
returns the null pointer. -/
def getStandardEffectChainSlot {P C S : Type} (m : EffectsManager P C S)
    (unitNumber : Int) : Except Fault (Option Nat) :=
  if VERIFY_OR_DEBUG_ASSERT (decide (0 ≤ unitNumber) ||
      decide (unitNumber < (m.m_standardEffectChainSlots.length : Int))) then
    Except.ok none
  else
    (QList.at m.m_standardEffectChainSlots unitNumber).map some

/-- The function `EffectsManager::addEqualizerEffectChainSlot`. -/
def addEqualizerEffectChainSlot {P C S E : Type} (K : ChainSlotClasses C S E)
    (m : EffectsManager P C S) (deckGroupName : QString) : EffectsManager P C S :=
  if VERIFY_OR_DEBUG_ASSERT
      (!(QHash.contains m.m_equalizerEffectChainSlots (K.formatEqualizer deckGroupName))) then
    m
  else
    let obj := K.newEqualizer deckGroupName
    let (store, pChainSlot) := allocChainSlot m.chainSlotObjects obj
    { m with
      chainSlotObjects := store
      m_equalizerEffectChainSlots :=
        QHash.insert m.m_equalizerEffectChainSlots deckGroupName pChainSlot
      m_effectChainSlotsByGroup :=
        QHash.insert m.m_effectChainSlotsByGroup (K.group obj) pChainSlot }

/-- The function `EffectsManager::addQuickEffectChainSlot`. -/
def addQuickEffectChainSlot {P C S E : Type} (K : ChainSlotClasses C S E)
    (m : EffectsManager P C S) (deckGroupName : QString) : EffectsManager P C S :=
  if VERIFY_OR_DEBUG_ASSERT
      (!(QHash.contains m.m_quickEffectChainSlots (K.formatQuick deckGroupName))) then
    m
  else
    let obj := K.newQuick deckGroupName
    let (store, pChainSlot) := allocChainSlot m.chainSlotObjects obj
    { m with
      chainSlotObjects := store
      m_quickEffectChainSlots :=
        QHash.insert m.m_quickEffectChainSlots deckGroupName pChainSlot
      m_effectChainSlotsByGroup :=
        QHash.insert m.m_effectChainSlotsByGroup (K.group obj) pChainSlot }

/-! ## Address resolution -/

/-- The function `EffectsManager::getEffectChainSlot`. -/
def getEffectChainSlot {P C S : Type} (m : EffectsManager P C S) (group : QString) :
    Option Nat :=
  QHash.value m.m_effectChainSlotsByGroup group

/-- The object a chain slot pointer refers to.  A null pointer refers to nothing;
an address outside the store does not arise from the functions above and is read
as a null pointer too. -/
def derefChainSlot {P C S : Type} (m : EffectsManager P C S) (pChainSlot : Option Nat) :
    Option S :=
  match pChainSlot with
  | none => none
  | some addr => m.chainSlotObjects.get? addr

/-- The function `EffectsManager::getEffectSlot`.  The result is a fault when
`parts.at(..)` is out of range, otherwise the returned effect slot pointer
(`none` is the null pointer). -/
def getEffectSlot {P C S E : Type} (K : ChainSlotClasses C S E)
    (m : EffectsManager P C S) (group : QString) : Except Fault (Option E) := do
  let parts := splitChars kEffectGroupSeparator group.chars
  let part0 ← QList.at parts 0
  let part1 ← QList.at parts 1
  let chainGroup : QString :=
    some (String.mk (part0 ++ [kEffectGroupSeparator] ++ part1 ++ [kGroupClose]))
  match derefChainSlot m (getEffectChainSlot m chainGroup) with
  | none => pure none -- the block of VERIFY_OR_DEBUG_ASSERT(pChainSlot)
  | some chainSlot =>
    let part2 ← QList.at parts 2
    pure (K.getEffectSlot chainSlot (toInt (intRegExCap1 part2) - 1))

/-- Modelled from the spec: the class `mixxx::EngineParameters` of
`engine/engine.h`, whose declaration is outside this development, reduced to the
two accessors the echo state reads.  The spec speaks of the sample rate and the
channel count as plain numbers; the integer types of the accessors are declared
in that header, and the values are taken as natural numbers. -/
structure EngineParameters where
  sampleRate : Nat
  channelCount : Nat
deriving DecidableEq, Repr

/-- Modelled from the spec: the class `mixxx::SampleBuffer` of
`util/samplebuffer.h`, whose declaration is outside this development: a block of
samples whose capacity is fixed when it is created. -/
structure SampleBuffer (σ : Type) where
  data : List σ
deriving DecidableEq, Repr

/-- Modelled from the spec: the member `SampleBuffer::size()` of
`util/samplebuffer.h`, the capacity of the buffer in samples. -/
def SampleBuffer.size {σ : Type} (b : SampleBuffer σ) : Nat :=
  b.data.length

/-- Modelled from the spec: the constructor `SampleBuffer(size)` of
`util/samplebuffer.h`.  It gives a buffer of capacity `size`; nothing is said
about the content, so `fresh k` stands for what the new memory holds at offset
`k`. -/
def SampleBuffer.alloc {σ : Type} (fresh : Nat → σ) (size : Nat) : SampleBuffer σ :=
  { data := (List.range size).map fresh }

/-- Modelled from the spec: the member `SampleBuffer::clear()` of
`util/samplebuffer.h`; it zeroes the buffer and keeps its capacity. -/
def SampleBuffer.clear {σ : Type} [Zero σ] (b : SampleBuffer σ) : SampleBuffer σ :=
  { data := b.data.map (fun _ => 0) }

/-- The constant `EchoGroupState::kMaxDelaySeconds`. -/
def kMaxDelaySeconds : Nat := 3

/-- The data members of `EchoGroupState`; `σ` stands for the sample type
`CSAMPLE` and for `CSAMPLE_GAIN`. -/
structure EchoGroupState (σ : Type) where
  delay_buf : SampleBuffer σ
  prev_send : σ
  prev_feedback : σ
  prev_delay_samples : Int
  write_position : Int
  ping_pong : Int
deriving DecidableEq, Repr

/-- The member `EchoGroupState::audioParametersChanged`: the delay buffer is
replaced by a newly allocated one. -/
def EchoGroupState.audioParametersChanged {σ : Type} (fresh : Nat → σ)
    (s : EchoGroupState σ) (bufferParameters : EngineParameters) : EchoGroupState σ :=
  { s with
    delay_buf := SampleBuffer.alloc fresh
      (kMaxDelaySeconds * bufferParameters.sampleRate * bufferParameters.channelCount) }

/-- The member `EchoGroupState::clear`. -/
def EchoGroupState.clear {σ : Type} [Zero σ] (s : EchoGroupState σ) : EchoGroupState σ :=
  { delay_buf := s.delay_buf.clear
    prev_send := 0
    prev_feedback := 0
    prev_delay_samples := 0
    write_position := 0
    ping_pong := 0 }

/-- The constructor of `EchoGroupState`: `audioParametersChanged` followed by
`clear`.  The members have no initialisers, so `uninit` stands for the state of
the object before the constructor body runs. -/
def EchoGroupState.construct {σ : Type} [Zero σ] (fresh : Nat → σ)
    (uninit : EchoGroupState σ) (bufferParameters : EngineParameters) : EchoGroupState σ :=
  (EchoGroupState.audioParametersChanged fresh uninit bufferParameters).clear

/-! ## Teardown of the manager -/

/-- The calls and container releases in the body of the destructor of
`EffectsManager`, one constructor per statement. -/
inductive TeardownAction where
  | startShutdownProcess
  | saveEffectsXml
  | clearEqualizerEffectChainSlots
  | clearQuickEffectChainSlots
  | clearStandardEffectChainSlots
  | clearOutputEffectChainSlot
  | clearEffectChainSlotsByGroup
  | processEffectsResponses
deriving DecidableEq, Repr

/-- The effect of one statement of the destructor on the members of the manager.
The two messenger calls and `saveEffectsXml` leave the containers as they are;
each `clear()` empties its container (for the output chain slot, resets the
pointer). -/
def applyTeardownAction {P C S : Type} (m : EffectsManager P C S) :
    TeardownAction → EffectsManager P C S
  | TeardownAction.startShutdownProcess => m
  | TeardownAction.saveEffectsXml => m
  | TeardownAction.clearEqualizerEffectChainSlots => { m with m_equalizerEffectChainSlots := [] }
  | TeardownAction.clearQuickEffectChainSlots => { m with m_quickEffectChainSlots := [] }
  | TeardownAction.clearStandardEffectChainSlots => { m with m_standardEffectChainSlots := [] }
  | TeardownAction.clearOutputEffectChainSlot => { m with m_outputEffectChainSlot := none }
  | TeardownAction.clearEffectChainSlotsByGroup => { m with m_effectChainSlotsByGroup := [] }
  | TeardownAction.processEffectsResponses => m

/-- The statements of `EffectsManager::~EffectsManager` in program order. -/
def destructorActions : List TeardownAction :=
  [ TeardownAction.startShutdownProcess,
    TeardownAction.saveEffectsXml,
    TeardownAction.clearEqualizerEffectChainSlots,
    TeardownAction.clearQuickEffectChainSlots,
    TeardownAction.clearStandardEffectChainSlots,
    TeardownAction.clearOutputEffectChainSlot,
    TeardownAction.clearEffectChainSlotsByGroup,
    TeardownAction.processEffectsResponses ]

/-- The destructor `EffectsManager::~EffectsManager`: the members as its body
leaves them, together with the actions it performed, in order. -/
def EffectsManager.destructor {P C S : Type} (m : EffectsManager P C S) :
    EffectsManager P C S × List TeardownAction :=
  (destructorActions.foldl applyTeardownAction m, destructorActions)

/-- The releases of the chain slot containers among the teardown actions. -/
def chainSlotReleases : List TeardownAction :=
  [ TeardownAction.clearEqualizerEffectChainSlots,
    TeardownAction.clearQuickEffectChainSlots,
    TeardownAction.clearStandardEffectChainSlots,
    TeardownAction.clearOutputEffectChainSlot,
    TeardownAction.clearEffectChainSlotsByGroup ]

/-- In the sequence `trace` both actions occur and the first occurrence of `a`
comes before the first occurrence of `b`. -/
def occursBefore (trace : List TeardownAction) (a b : TeardownAction) : Prop :=
  a ∈ trace ∧ b ∈ trace ∧ trace.indexOf a < trace.indexOf b

instance (trace : List TeardownAction) (a b : TeardownAction) :
    Decidable (occursBefore trace a b) := by
  unfold occursBefore
  exact inferInstance

/-! ## Concrete states used as witnesses -/

/-- A manager whose visible list is given and whose other containers are empty. -/
def managerWithVisible {P : Type} (visible : List P) : EffectsManager P Nat Nat :=
  { EffectsManager.init P Nat Nat with m_visibleEffectManifests := visible }

/-- A comparison on manifests that are represented by their rank in the
alphabetical order. -/
def rankLess (a b : Nat) : Bool :=
  decide (a < b)

/-- A chain slot object reduced to what the manager can observe: its group and
the channels handed to `registerInputChannel`, in call order. -/
structure DemoChainSlot where
  group : QString
  channels : List Nat
deriving DecidableEq, Repr

/-- Group names of the standard chains, `[EffectRack1_EffectUnit<i+1>]`. -/
def demoFormatStandard (i : Int) : QString :=
  some (String.mk ("[EffectRack1_EffectUnit".data ++ (Nat.repr (i.toNat + 1)).data ++ [']']))

/-- Group names of the equalizer chains, `[EqualizerRack1_<deck>]`. -/
def demoFormatEqualizer (deck : QString) : QString :=
  some (String.mk ("[EqualizerRack1_".data ++ deck.chars ++ [']']))

/-- Group names of the quick effect chains, `[QuickEffectRack1_<deck>]`. -/
def demoFormatQuick (deck : QString) : QString :=
  some (String.mk ("[QuickEffectRack1_".data ++ deck.chars ++ [']']))

/-- One instance of the chain slot classes: a new chain slot carries the
formatted group name of its kind, registering a channel appends it to the
slot, and the effect slot with internal index `i` is represented by `i` itself
(a negative index has no slot).  There are four standard chains. -/
def demoClasses : ChainSlotClasses Nat DemoChainSlot Int :=
  { group := fun s => s.group
    registerInputChannel := fun s c => { s with channels := s.channels ++ [c] }
    getEffectSlot := fun _ i => if 0 ≤ i then some i else none
    newStandard := fun i => { group := demoFormatStandard i, channels := [] }
    newOutput := { group := some "[OutputEffectRack_[Master]]", channels := [] }
    newEqualizer := fun deck => { group := demoFormatEqualizer deck, channels := [] }
    newQuick := fun deck => { group := demoFormatQuick deck, channels := [] }
    formatStandard := demoFormatStandard
    formatEqualizer := demoFormatEqualizer
    formatQuick := demoFormatQuick
    kNumStandardEffectChains := 4 }

/-- The manager after `addStandardEffectChainSlots` and `addOutputEffectChainSlot`
on a new manager, as `setup` leaves it before the presets are read. -/
def demoManager : EffectsManager Nat Nat DemoChainSlot :=
  addOutputEffectChainSlot demoClasses
    (addStandardEffectChainSlots demoClasses (EffectsManager.init Nat Nat DemoChainSlot))

/-- A new manager after one call of `addEqualizerEffectChainSlot` for the deck
group `[Channel1]`. -/
def demoEqualizerManager : EffectsManager Nat Nat DemoChainSlot :=
  addEqualizerEffectChainSlot demoClasses (EffectsManager.init Nat Nat DemoChainSlot)
    (some "[Channel1]")

/-- A new manager after one call of `addQuickEffectChainSlot` for the deck group
`[Channel1]`. -/
def demoQuickManager : EffectsManager Nat Nat DemoChainSlot :=
  addQuickEffectChainSlot demoClasses (EffectsManager.init Nat Nat DemoChainSlot)
    (some "[Channel1]")

/-- A sequence of format changes applied in order; each comes with the content of
the memory its allocation gets. -/
def applyFormatChanges {σ : Type} (s : EchoGroupState σ)
    (changes : List ((Nat → σ) × EngineParameters)) : EchoGroupState σ :=
  changes.foldl (fun st ch => EchoGroupState.audioParametersChanged ch.1 st ch.2) s

/-! ## Auxiliary facts -/

theorem QString.eq_self (a : QString) : QString.eq a a = true := by
  simp [QString.eq]

theorem QString.eq_symm (a b : QString) : QString.eq a b = QString.eq b a := by
  simp only [QString.eq]
  exact decide_eq_decide.mpr ⟨fun h => h.symm, fun h => h.symm⟩

theorem QList.at_ok {α : Type} (l : List α) (k : Nat) (h : k < l.length) :
    QList.at l (k : Int) = Except.ok (l.get ⟨k, h⟩) := by
  unfold QList.at
  have h1 : (0 : Int) ≤ (k : Int) ∧ (k : Int) < (l.length : Int) := by
    constructor <;> omega
  rw [if_pos h1]
  have h2 : l.get? (k : Int).toNat = some (l.get ⟨k, h⟩) := by
    rw [Int.toNat_ofNat]
    exact List.get?_eq_get h
  rw [h2]

theorem QList.at_error {α : Type} (l : List α) (i : Int)
    (h : i < 0 ∨ (l.length : Int) ≤ i) :
    QList.at l i = Except.error Fault.indexOutOfRange := by
  unfold QList.at
  have h1 : ¬ ((0 : Int) ≤ i ∧ i < (l.length : Int)) := by omega
  rw [if_neg h1]

theorem findEffectIndex_get {P : Type} (manifestId : P → QString) :
    ∀ (l : List P) (i : Nat) (hi : i < l.length),
      l.Pairwise (fun a b => QString.eq (manifestId a) (manifestId b) = false) →
      findEffectIndex manifestId (manifestId (l.get ⟨i, hi⟩)) l = i := by
  intro l
  induction l with
  | nil => intro i hi; simp at hi
  | cons p rest ih =>
    intro i hi hpw
    rw [List.pairwise_cons] at hpw
    cases i with
    | zero => simp [findEffectIndex, QString.eq_self]
    | succ j =>
      have hj : j < rest.length := by simpa using hi
      have hne : QString.eq (manifestId (rest.get ⟨j, hj⟩)) (manifestId p) = false := by
        rw [QString.eq_symm]
        exact hpw.1 _ (List.get_mem rest j hj)
      have hrec := ih j hj hpw.2
      simp only [List.get_eq_getElem] at hrec hne
      simp [findEffectIndex, hne, hrec]

theorem findEffectIndex_no_match {P : Type} (manifestId : P → QString) (effectId : QString) :
    ∀ (l : List P), (∀ p ∈ l, QString.eq effectId (manifestId p) = false) →
      findEffectIndex manifestId effectId l = l.length := by
  intro l
  induction l with
  | nil => intro _; rfl
  | cons p rest ih =>
    intro h
    have hp : QString.eq effectId (manifestId p) = false := h p (List.mem_cons_self _ _)
    have hrest := ih (fun q hq => h q (List.mem_cons_of_mem _ hq))
    simp [findEffectIndex, hp, hrest]

/-! ## Cycling through the visible effects: results -/

/-- C1 (as amended): for a visible list of length n whose ids are pairwise
distinct under the string comparison, and an index i below n whose id is not
the null string, `getNextEffectId` called with the id at index i returns the id
at index (i + 1) mod n, without a fault. -/
theorem getNextEffectId_cycles {P C S : Type} (manifestId : P → QString)
    (m : EffectsManager P C S) (i : Nat) (hi : i < m.m_visibleEffectManifests.length)
    (hdistinct : m.m_visibleEffectManifests.Pairwise
      (fun a b => QString.eq (manifestId a) (manifestId b) = false))
    (hnonnull : (manifestId (m.m_visibleEffectManifests.get ⟨i, hi⟩)).isNull = false) :
    getNextEffectId manifestId m (manifestId (m.m_visibleEffectManifests.get ⟨i, hi⟩)) =
      Except.ok (manifestId (m.m_visibleEffectManifests.get
        ⟨(i + 1) % m.m_visibleEffectManifests.length,
          Nat.mod_lt _ (Nat.lt_of_le_of_lt (Nat.zero_le i) hi)⟩)) := by
  have hne : m.m_visibleEffectManifests.isEmpty = false := by
    cases hl : m.m_visibleEffectManifests with
    | nil => rw [hl] at hi; simp at hi
    | cons _ _ => rfl
  have hidx := findEffectIndex_get manifestId m.m_visibleEffectManifests i hi hdistinct
  unfold getNextEffectId
  simp only [hne, hnonnull, hidx, Bool.false_eq_true, if_false]
  by_cases hlast : i + 1 < m.m_visibleEffectManifests.length
  · have hcond : ¬ ((i : Int) + 1 ≥ (m.m_visibleEffectManifests.length : Int)) := by omega
    rw [if_neg hcond]
    have hat := QList.at_ok m.m_visibleEffectManifests (i + 1) hlast
    rw [Nat.cast_add, Nat.cast_one] at hat
    rw [hat]
    simp only [Nat.mod_eq_of_lt hlast]
    rfl
  · have hcond : (i : Int) + 1 ≥ (m.m_visibleEffectManifests.length : Int) := by omega
    rw [if_pos hcond]
    have hpos : 0 < m.m_visibleEffectManifests.length := by omega
    have hat := QList.at_ok m.m_visibleEffectManifests 0 hpos
    rw [Nat.cast_zero] at hat
    rw [hat]
    have hn : i + 1 = m.m_visibleEffectManifests.length := by omega
    simp only [hn, Nat.mod_self]
    rfl

/-- Witness for C1 (as amended): in the list a, b, c the id after c is a. -/
theorem getNextEffectId_cycles_witness :
    getNextEffectId id (managerWithVisible [some "a", some "b", some "c"]) (some "c") =
      Except.ok (some "a") :=
  getNextEffectId_cycles id (managerWithVisible [some "a", some "b", some "c"]) 2
    (by decide) (by decide) (by decide)

/-- C1 fails as stated: the ids null, a, b are pairwise distinct, yet
`getNextEffectId` called with the id at index 0 (the null string) returns the id
at index 0 again and not the id at index 1. -/
theorem getNextEffectId_null_id_counterexample :
    (managerWithVisible [none, some "a", some "b"]).m_visibleEffectManifests.Pairwise
        (fun a b => QString.eq (id a) (id b) = false) ∧
      getNextEffectId id (managerWithVisible [none, some "a", some "b"]) none =
        Except.ok none ∧
      getNextEffectId id (managerWithVisible [none, some "a", some "b"]) none ≠
        Except.ok (some "a") := by
  refine ⟨by decide, by decide, by decide⟩

/-- C2 (as amended): for a visible list of length n whose ids are pairwise
distinct under the string comparison, and an index i below n whose id is not
the null string, `getPrevEffectId` called with the id at index i returns the id
at index (i + n - 1) mod n, without a fault; and for every non-empty visible
list, `getPrevEffectId` called with the null id returns the id of the last
element. -/
theorem getPrevEffectId_cycles {P C S : Type} (manifestId : P → QString)
    (m : EffectsManager P C S) :
    (∀ (i : Nat) (hi : i < m.m_visibleEffectManifests.length),
      m.m_visibleEffectManifests.Pairwise
        (fun a b => QString.eq (manifestId a) (manifestId b) = false) →
      (manifestId (m.m_visibleEffectManifests.get ⟨i, hi⟩)).isNull = false →
      getPrevEffectId manifestId m (manifestId (m.m_visibleEffectManifests.get ⟨i, hi⟩)) =
        Except.ok (manifestId (m.m_visibleEffectManifests.get
          ⟨(i + m.m_visibleEffectManifests.length - 1) % m.m_visibleEffectManifests.length,
            Nat.mod_lt _ (Nat.lt_of_le_of_lt (Nat.zero_le i) hi)⟩))) ∧
    (∀ lastManifest, m.m_visibleEffectManifests.getLast? = some lastManifest →
      getPrevEffectId manifestId m none = Except.ok (manifestId lastManifest)) := by
  refine ⟨?_, ?_⟩
  · intro i hi hdistinct hnonnull
    have hne : m.m_visibleEffectManifests.isEmpty = false := by
      cases hl : m.m_visibleEffectManifests with
      | nil => rw [hl] at hi; simp at hi
      | cons _ _ => rfl
    have hidx := findEffectIndex_get manifestId m.m_visibleEffectManifests i hi hdistinct
    unfold getPrevEffectId
    simp only [hne, hnonnull, hidx, Bool.false_eq_true, if_false]
    cases i with
    | zero =>
      have hcond : ((0 : Nat) : Int) - 1 < 0 := by omega
      rw [if_pos hcond]
      have hlt : m.m_visibleEffectManifests.length - 1 < m.m_visibleEffectManifests.length := by
        omega
      have hat := QList.at_ok m.m_visibleEffectManifests _ hlt
      have hcast : ((m.m_visibleEffectManifests.length - 1 : Nat) : Int) =
          (m.m_visibleEffectManifests.length : Int) - 1 := by omega
      rw [hcast] at hat
      rw [hat]
      simp only [Nat.zero_add, Nat.mod_eq_of_lt hlt]
      rfl
    | succ j =>
      have hcond : ¬ (((j + 1 : Nat) : Int) - 1 < 0) := by omega
      rw [if_neg hcond]
      have hlt : j < m.m_visibleEffectManifests.length := by omega
      have hat := QList.at_ok m.m_visibleEffectManifests j hlt
      have hcast : (j : Int) = ((j + 1 : Nat) : Int) - 1 := by omega
      rw [hcast] at hat
      rw [hat]
      have hmod : (j + 1 + m.m_visibleEffectManifests.length - 1) %
          m.m_visibleEffectManifests.length = j := by
        have h1 : j + 1 + m.m_visibleEffectManifests.length - 1 =
            j + m.m_visibleEffectManifests.length := by omega
        rw [h1, Nat.add_mod_right, Nat.mod_eq_of_lt hlt]
      simp only [hmod]
      rfl
  · intro lastManifest hlast
    rw [List.getLast?_eq_getElem?] at hlast
    rcases List.getElem?_eq_some.mp hlast with ⟨hlt, hx⟩
    have hne : m.m_visibleEffectManifests.isEmpty = false := by
      cases hl : m.m_visibleEffectManifests with
      | nil => rw [hl] at hlt; simp at hlt
      | cons _ _ => rfl
    have hat := QList.at_ok m.m_visibleEffectManifests _ hlt
    have hcast : ((m.m_visibleEffectManifests.length - 1 : Nat) : Int) =
        (m.m_visibleEffectManifests.length : Int) - 1 := by omega
    rw [hcast] at hat
    unfold getPrevEffectId
    simp only [hne, QString.isNull, Bool.false_eq_true, if_false, if_true, hat]
    rw [← hx]
    rfl

/-- Witness for C2 (as amended): in the list a, b, c the id before a is c, and
the null id is answered with c, the id of the last element. -/
theorem getPrevEffectId_cycles_witness :
    getPrevEffectId id (managerWithVisible [some "a", some "b", some "c"]) (some "a") =
        Except.ok (some "c") ∧
      getPrevEffectId id (managerWithVisible [some "a", some "b", some "c"]) none =
        Except.ok (some "c") :=
  ⟨(getPrevEffectId_cycles id (managerWithVisible [some "a", some "b", some "c"])).1 0
      (by decide) (by decide) (by decide),
    (getPrevEffectId_cycles id (managerWithVisible [some "a", some "b", some "c"])).2
      (some "c") (by decide)⟩

/-- C2 fails as stated: the ids a, b, null are pairwise distinct, yet
`getPrevEffectId` called with the id at index 2 (the null string) returns the id
at index 2 again and not the id at index 1. -/
theorem getPrevEffectId_null_id_counterexample :
    (managerWithVisible [some "a", some "b", none]).m_visibleEffectManifests.Pairwise
        (fun a b => QString.eq (id a) (id b) = false) ∧
      getPrevEffectId id (managerWithVisible [some "a", some "b", none]) none =
        Except.ok none ∧
      getPrevEffectId id (managerWithVisible [some "a", some "b", none]) none ≠
        Except.ok (some "b") := by
  refine ⟨by decide, by decide, by decide⟩

/-- C3: with a non-empty visible list, `getNextEffectId` called with the null id
returns the id of the first element, and so does a call with the empty non-null
id when that id matches no manifest; with an empty visible list it returns the
null string whatever the argument. -/
theorem getNextEffectId_null_or_empty {P C S : Type} (manifestId : P → QString)
    (m : EffectsManager P C S) :
    (∀ first rest, m.m_visibleEffectManifests = first :: rest →
      getNextEffectId manifestId m none = Except.ok (manifestId first) ∧
      ((∀ p ∈ m.m_visibleEffectManifests, QString.eq (some "") (manifestId p) = false) →
        getNextEffectId manifestId m (some "") = Except.ok (manifestId first))) ∧
    (m.m_visibleEffectManifests = [] →
      ∀ effectId, getNextEffectId manifestId m effectId = Except.ok none) := by
  refine ⟨?_, ?_⟩
  · intro first rest hl
    have hat0 : QList.at (first :: rest) 0 = Except.ok first :=
      QList.at_ok (first :: rest) 0 (by simp)
    refine ⟨?_, ?_⟩
    · unfold getNextEffectId
      rw [hl]
      simp only [List.isEmpty_cons, QString.isNull, Bool.false_eq_true, if_false, if_true, hat0]
      rfl
    · intro hno
      have hidx := findEffectIndex_no_match manifestId (some "") m.m_visibleEffectManifests hno
      unfold getNextEffectId
      simp only [hidx]
      rw [hl]
      have hcond : (((first :: rest).length : Nat) : Int) + 1 ≥ ((first :: rest).length : Int) := by
        omega
      simp only [List.isEmpty_cons, QString.isNull, Bool.false_eq_true, if_false, if_pos hcond,
        hat0]
      rfl
  · intro hl effectId
    unfold getNextEffectId
    rw [hl]
    rfl

/-- Witness for C3: the list a, b answers a to the null id and to the empty id,
and the empty list answers the null string. -/
theorem getNextEffectId_null_or_empty_witness :
    getNextEffectId id (managerWithVisible [some "a", some "b"]) none = Except.ok (some "a") ∧
      getNextEffectId id (managerWithVisible [some "a", some "b"]) (some "") =
        Except.ok (some "a") ∧
      getNextEffectId id (managerWithVisible []) (some "x") = Except.ok none :=
  ⟨((getNextEffectId_null_or_empty id (managerWithVisible [some "a", some "b"])).1
      (some "a") [some "b"] rfl).1,
    ((getNextEffectId_null_or_empty id (managerWithVisible [some "a", some "b"])).1
      (some "a") [some "b"] rfl).2 (by decide),
    (getNextEffectId_null_or_empty id (managerWithVisible [])).2 rfl (some "x")⟩

/-! ## The sorted list of visible effects: results -/

theorem StrictWeakOrdering.neg_trans {P : Type} {comp : P → P → Bool}
    (hswo : StrictWeakOrdering comp) (a b c : P) (hac : comp a c = true) :
    comp a b = true ∨ comp b c = true := by
  by_contra hcon
  have hab : comp a b = false := by
    cases h : comp a b with
    | false => rfl
    | true => exact absurd (Or.inl h) hcon
  have hbc : comp b c = false := by
    cases h : comp b c with
    | false => rfl
    | true => exact absurd (Or.inr h) hcon
  have hba : comp b a = false := by
    cases h : comp b a with
    | false => rfl
    | true =>
      have := hswo.trans b a c h hac
      rw [hbc] at this
      exact absurd this (by decide)
  have hcb : comp c b = false := by
    cases h : comp c b with
    | false => rfl
    | true =>
      have := hswo.trans a c b hac h
      rw [hab] at this
      exact absurd this (by decide)
  have := (hswo.incomp_trans a b c hab hba hbc hcb).1
  rw [hac] at this
  exact absurd this (by decide)

theorem StrictWeakOrdering.asymm {P : Type} {comp : P → P → Bool}
    (hswo : StrictWeakOrdering comp) (a b : P) (hab : comp a b = true) :
    comp b a = false := by
  cases h : comp b a with
  | false => rfl
  | true =>
    have := hswo.trans a b a hab h
    rw [hswo.irrefl a] at this
    exact absurd this (by decide)

theorem isSortedBy_iff_pairwise {P : Type} {comp : P → P → Bool}
    (hswo : StrictWeakOrdering comp) (l : List P) :
    IsSortedBy comp l ↔ l.Pairwise (fun a b => comp b a = false) := by
  haveI : IsTrans P (fun a b => comp b a = false) :=
    ⟨fun a b c hba hcb => by
      cases h : comp c a with
      | false => rfl
      | true =>
        rcases hswo.neg_trans c b a h with h1 | h1
        · rw [hcb] at h1; exact absurd h1 (by decide)
        · rw [hba] at h1; exact absurd h1 (by decide)⟩
  exact List.chain'_iff_pairwise

theorem lowerBoundLoop_spec {P : Type} {comp : P → P → Bool}
    (hswo : StrictWeakOrdering comp) (l : List P) (v : P)
    (hpw : l.Pairwise (fun a b => comp b a = false)) :
    ∀ (rounds first len : Nat), len ≤ rounds → first + len ≤ l.length →
      (∀ (j : Nat) (hj : j < l.length), j < first → comp (l.get ⟨j, hj⟩) v = true) →
      (∀ (j : Nat) (hj : j < l.length), first + len ≤ j → comp (l.get ⟨j, hj⟩) v = false) →
      lowerBoundLoop comp l v rounds first len ≤ l.length ∧
      (∀ (j : Nat) (hj : j < l.length), j < lowerBoundLoop comp l v rounds first len →
        comp (l.get ⟨j, hj⟩) v = true) ∧
      (∀ (j : Nat) (hj : j < l.length), lowerBoundLoop comp l v rounds first len ≤ j →
        comp (l.get ⟨j, hj⟩) v = false) := by
  have hsorted : ∀ (i j : Nat) (hi : i < l.length) (hj : j < l.length), i < j →
      comp (l.get ⟨j, hj⟩) (l.get ⟨i, hi⟩) = false := by
    intro i j hi hj hij
    exact (List.pairwise_iff_getElem.mp hpw) i j hi hj hij
  intro rounds
  induction rounds with
  | zero =>
    intro first len hlen hbound hlow hhigh
    have hzero : len = 0 := by omega
    subst hzero
    simp only [lowerBoundLoop]
    exact ⟨by omega, hlow, fun j hj hle => hhigh j hj (by omega)⟩
  | succ rounds ih =>
    intro first len hlen hbound hlow hhigh
    by_cases hzero : len = 0
    · subst hzero
      simp only [lowerBoundLoop, if_true]
      exact ⟨by omega, hlow, fun j hj hle => hhigh j hj (by omega)⟩
    · have hmid : first + len / 2 < l.length := by
        have : len / 2 < len := Nat.div_lt_self (by omega) (by decide)
        omega
      have hget : l.get? (first + len / 2) = some (l.get ⟨first + len / 2, hmid⟩) :=
        List.get?_eq_get hmid
      simp only [lowerBoundLoop, if_neg hzero, hget]
      have hhalf : len / 2 < len := Nat.div_lt_self (by omega) (by decide)
      cases hc : comp (l.get ⟨first + len / 2, hmid⟩) v with
      | true =>
        simp only [if_true]
        apply ih (first + len / 2 + 1) (len - len / 2 - 1) (by omega) (by omega)
        · intro j hj hlt
          by_cases hjm : j = first + len / 2
          · subst hjm; exact hc
          · have hjlt : j < first + len / 2 := by omega
            have hs := hsorted j (first + len / 2) hj hmid hjlt
            rcases hswo.neg_trans _ (l.get ⟨j, hj⟩) v hc with h1 | h1
            · rw [hs] at h1; exact absurd h1 (by decide)
            · exact h1
        · intro j hj hle
          exact hhigh j hj (by omega)
      | false =>
        simp only [Bool.false_eq_true, if_false]
        apply ih first (len / 2) (by omega) (by omega) hlow
        intro j hj hle
        by_cases hjm : j = first + len / 2
        · subst hjm; exact hc
        · have hjgt : first + len / 2 < j := by omega
          have hs := hsorted (first + len / 2) j hmid hj hjgt
          cases hjv : comp (l.get ⟨j, hj⟩) v with
          | false => rfl
          | true =>
            rcases hswo.neg_trans _ (l.get ⟨first + len / 2, hmid⟩) v hjv with h1 | h1
            · rw [hs] at h1; exact absurd h1 (by decide)
            · rw [hc] at h1; exact absurd h1 (by decide)

theorem lower_bound_spec {P : Type} {comp : P → P → Bool}
    (hswo : StrictWeakOrdering comp) (l : List P) (v : P)
    (hpw : l.Pairwise (fun a b => comp b a = false)) :
    (∀ x ∈ l.take (lower_bound comp l v), comp v x = false) ∧
    (∀ y ∈ l.drop (lower_bound comp l v), comp y v = false) := by
  have hspec := lowerBoundLoop_spec hswo l v hpw l.length 0 l.length (Nat.le_refl _)
    (by omega) (fun j _ hlt => absurd hlt (Nat.not_lt_zero j))
    (fun j hj hle => absurd hj (by omega))
  unfold lower_bound
  constructor
  · intro x hx
    rcases List.mem_take_iff_getElem.mp hx with ⟨i, hi, rfl⟩
    have hil : i < l.length := (lt_min_iff.mp hi).2
    exact hswo.asymm _ _ (hspec.2.1 i hil (lt_min_iff.mp hi).1)
  · intro y hy
    rcases List.mem_drop_iff_getElem.mp hy with ⟨i, hi, rfl⟩
    exact hspec.2.2 _ (by omega) (by omega)

theorem insertAt_lower_bound_pairwise {P : Type} {comp : P → P → Bool}
    (hswo : StrictWeakOrdering comp) (l : List P) (v : P)
    (hpw : l.Pairwise (fun a b => comp b a = false)) :
    (QList.insertAt l (lower_bound comp l v) v).Pairwise (fun a b => comp b a = false) := by
  have hspec := lower_bound_spec hswo l v hpw
  have hsplit : (l.take (lower_bound comp l v) ++ l.drop (lower_bound comp l v)).Pairwise
      (fun a b => comp b a = false) := by
    rw [List.take_append_drop]; exact hpw
  rw [List.pairwise_append] at hsplit
  unfold QList.insertAt
  rw [List.pairwise_append]
  refine ⟨hsplit.1, ?_, ?_⟩
  · rw [List.pairwise_cons]
    exact ⟨hspec.2, hsplit.2.1⟩
  · intro a ha b hb
    rcases List.mem_cons.mp hb with hbv | hbd
    · rw [hbv]; exact hspec.1 a ha
    · exact hsplit.2.2 a ha b hbd

theorem rankLess_strictWeakOrdering : StrictWeakOrdering rankLess := by
  refine ⟨?_, ?_, ?_⟩
  · intro a; simp [rankLess]
  · intro a b c; simp only [rankLess, decide_eq_true_eq]; omega
  · intro a b c; simp only [rankLess, decide_eq_false_iff_not]; omega

/-- C4: if `alphabetize` is a strict weak ordering and the visible list is sorted
for it, then for every manifest and every flag the visible list after
`setEffectVisibility` is sorted for it again. -/
theorem setEffectVisibility_keeps_sorted {P C S : Type} [DecidableEq P]
    (alphabetize : P → P → Bool) (hswo : StrictWeakOrdering alphabetize)
    (m : EffectsManager P C S) (pManifest : P) (visible : Bool)
    (hsorted : IsSortedBy alphabetize m.m_visibleEffectManifests) :
    IsSortedBy alphabetize
      (setEffectVisibility alphabetize m pManifest visible).m_visibleEffectManifests := by
  have hpw := (isSortedBy_iff_pairwise hswo _).mp hsorted
  unfold setEffectVisibility
  split
  · exact (isSortedBy_iff_pairwise hswo _).mpr
      (insertAt_lower_bound_pairwise hswo _ pManifest hpw)
  · split
    · exact (isSortedBy_iff_pairwise hswo _).mpr
        (List.Pairwise.sublist (List.erase_sublist pManifest _) hpw)
    · exact hsorted

/-- Witness for C4: making the manifest of rank 4 visible in the sorted list
1, 3, 5 gives a sorted list. -/
theorem setEffectVisibility_keeps_sorted_witness :
    IsSortedBy rankLess
        (setEffectVisibility rankLess (managerWithVisible [1, 3, 5]) 4
          true).m_visibleEffectManifests ∧
      (setEffectVisibility rankLess (managerWithVisible [1, 3, 5]) 4
        true).m_visibleEffectManifests = [1, 3, 4, 5] :=
  ⟨setEffectVisibility_keeps_sorted rankLess rankLess_strictWeakOrdering
      (managerWithVisible [1, 3, 5]) 4 true
      (by simp [IsSortedBy, managerWithVisible, EffectsManager.init, rankLess]),
    by decide⟩

/-! ## Channel registration: results -/

theorem QSet.contains_insert {α : Type} [DecidableEq α] (s : List α) (x : α) :
    QSet.contains (QSet.insert s x) x = true := by
  unfold QSet.insert
  by_cases h : QSet.contains s x = true
  · rw [if_pos h]; exact h
  · rw [if_neg h]; simp [QSet.contains]

/-- C5: `registerInputChannel` is idempotent.  For every manager state, every
behaviour of the chain slots and every channel, a second call with the same
channel returns the state of the first call unchanged: the registered input
set keeps its size and its members, and the chain slot objects (hence what
each standard chain slot was handed) are the same. -/
theorem registerInputChannel_idempotent {P C S E : Type} [DecidableEq C]
    (K : ChainSlotClasses C S E) (m : EffectsManager P C S) (c : C) :
    registerInputChannel K (registerInputChannel K m c) c = registerInputChannel K m c ∧
    (registerInputChannel K (registerInputChannel K m c) c).m_registeredInputChannels.length =
      (registerInputChannel K m c).m_registeredInputChannels.length ∧
    (∀ x, x ∈ (registerInputChannel K (registerInputChannel K m c) c).m_registeredInputChannels ↔
      x ∈ (registerInputChannel K m c).m_registeredInputChannels) ∧
    (registerInputChannel K (registerInputChannel K m c) c).chainSlotObjects =
      (registerInputChannel K m c).chainSlotObjects := by
  have hreg : QSet.contains (registerInputChannel K m c).m_registeredInputChannels c = true := by
    unfold registerInputChannel
    by_cases h : QSet.contains m.m_registeredInputChannels c = true
    · simp [VERIFY_OR_DEBUG_ASSERT, h]
    · simp only [VERIFY_OR_DEBUG_ASSERT, h, Bool.not_not, Bool.false_eq_true, if_false]
      exact QSet.contains_insert _ _
  have hsame : registerInputChannel K (registerInputChannel K m c) c =
      registerInputChannel K m c := by
    generalize registerInputChannel K m c = m1 at hreg
    unfold registerInputChannel
    simp [VERIFY_OR_DEBUG_ASSERT, hreg]
  rw [hsame]
  exact ⟨rfl, rfl, fun _ => Iff.rfl, rfl⟩

/-! ## Address resolution: results -/

theorem QHash.value_of_not_contains {V : Type} (h : List (QString × V)) (key : QString)
    (hno : QHash.contains h key = false) : QHash.value h key = none := by
  unfold QHash.contains at hno
  unfold QHash.value
  have hfind : h.find? (fun kv => QString.eq kv.1 key) = none := by
    rw [List.find?_eq_none]
    intro kv hkv
    have := (List.any_eq_false.mp hno) kv hkv
    simpa using this
  rw [hfind]

theorem except_ok_bind {α β : Type} (a : α) (f : α → Except Fault β) :
    (Except.ok a >>= f) = f a :=
  rfl

theorem splitChars_ne_nil (sep : Char) : ∀ (a : List Char), splitChars sep a ≠ [] := by
  intro a
  cases a with
  | nil => simp [splitChars]
  | cons c cs =>
    by_cases hc : c = sep
    · simp [splitChars, hc]
    · simp only [splitChars, if_neg hc]
      cases splitChars sep cs <;> simp

/-- C6 (as amended): for every group string, (a) if it splits at the separator
into fewer than two parts, `getEffectSlot` indexes the part list out of range;
(b) if it splits into at least two parts and the chain group built from the
first two names no registered chain, `getEffectSlot` returns the null
reference; (c) if it splits into exactly two parts and the by-group container
yields a chain slot for that chain group, `getEffectSlot` indexes the part list
out of range; (d) if it splits into at least three parts, `getEffectSlot`
returns a reference (possibly null) and never indexes the part list out of
range. -/
theorem getEffectSlot_valid_group {P C S E : Type} (K : ChainSlotClasses C S E)
    (m : EffectsManager P C S) (group : QString) :
    ((splitChars kEffectGroupSeparator group.chars).length < 2 →
      getEffectSlot K m group = Except.error Fault.indexOutOfRange) ∧
    (∀ (part0 part1 : List Char) (rest : List (List Char)),
      splitChars kEffectGroupSeparator group.chars = part0 :: part1 :: rest →
      (QHash.contains m.m_effectChainSlotsByGroup
          (some (String.mk (part0 ++ [kEffectGroupSeparator] ++ part1 ++ [kGroupClose]))) =
            false →
        getEffectSlot K m group = Except.ok none) ∧
      (rest = [] → ∀ chainSlot, derefChainSlot m (getEffectChainSlot m
          (some (String.mk (part0 ++ [kEffectGroupSeparator] ++ part1 ++ [kGroupClose])))) =
            some chainSlot →
        getEffectSlot K m group = Except.error Fault.indexOutOfRange) ∧
      (rest ≠ [] → ∃ pEffectSlot, getEffectSlot K m group = Except.ok pEffectSlot)) := by
  constructor
  · intro hshort
    cases hparts : splitChars kEffectGroupSeparator group.chars with
    | nil => exact absurd hparts (splitChars_ne_nil _ _)
    | cons part0 more =>
      cases more with
      | cons part1 rest =>
        rw [hparts] at hshort
        simp only [List.length_cons] at hshort
        omega
      | nil =>
        have hat0 : QList.at [part0] 0 = Except.ok part0 := QList.at_ok [part0] 0 (by simp)
        have hat1 : QList.at [part0] 1 = Except.error Fault.indexOutOfRange :=
          QList.at_error [part0] 1 (by simp)
        unfold getEffectSlot
        simp only [hparts, hat0, hat1, except_ok_bind]
        rfl
  · intro part0 part1 rest hparts
    have hat0 : QList.at (part0 :: part1 :: rest) 0 = Except.ok part0 :=
      QList.at_ok (part0 :: part1 :: rest) 0 (by simp)
    have hat1 : QList.at (part0 :: part1 :: rest) 1 = Except.ok part1 :=
      QList.at_ok (part0 :: part1 :: rest) 1 (by simp)
    refine ⟨?_, ?_, ?_⟩
    · intro hno
      have hnull := QHash.value_of_not_contains _ _ hno
      unfold getEffectSlot
      simp only [hparts, hat0, hat1, except_ok_bind, getEffectChainSlot, hnull, derefChainSlot]
      rfl
    · intro hrest chainSlot hregistered
      subst hrest
      have hat2 : QList.at [part0, part1] 2 = Except.error Fault.indexOutOfRange :=
        QList.at_error [part0, part1] 2 (by simp)
      unfold getEffectSlot
      simp only [hparts, hat0, hat1, hat2, except_ok_bind, hregistered]
      rfl
    · intro hrest
      cases rest with
      | nil => exact absurd rfl hrest
      | cons part2 more =>
        have hat2 : QList.at (part0 :: part1 :: part2 :: more) 2 = Except.ok part2 :=
          QList.at_ok (part0 :: part1 :: part2 :: more) 2 (by simp)
        unfold getEffectSlot
        simp only [hparts, hat0, hat1, hat2, except_ok_bind]
        cases derefChainSlot m (getEffectChainSlot m
          (some (String.mk (part0 ++ [kEffectGroupSeparator] ++ part1 ++ [kGroupClose])))) with
        | none => exact ⟨none, rfl⟩
        | some chainSlot => exact ⟨_, rfl⟩

/-- Witness for C6 (as amended): a one-part string runs into the out-of-range
access; a three-part address of an unknown chain resolves to the null
reference without a fault; the two-part string that names the registered
output chain runs into the out-of-range access. -/
theorem getEffectSlot_valid_group_witness :
    getEffectSlot demoClasses demoManager (some "EffectRack1") =
        Except.error Fault.indexOutOfRange ∧
      getEffectSlot demoClasses demoManager (some "[EffectRack1_EffectUnit9_Effect1]") =
        Except.ok none ∧
      (∃ pEffectSlot,
        getEffectSlot demoClasses demoManager (some "[EffectRack1_EffectUnit9_Effect1]") =
          Except.ok pEffectSlot) ∧
      getEffectSlot demoClasses demoManager (some "[OutputEffectRack_[Master]") =
        Except.error Fault.indexOutOfRange :=
  ⟨(getEffectSlot_valid_group demoClasses demoManager (some "EffectRack1")).1 (by decide),
    ((getEffectSlot_valid_group demoClasses demoManager
      (some "[EffectRack1_EffectUnit9_Effect1]")).2 "[EffectRack1".data "EffectUnit9".data
      ["Effect1]".data] (by decide)).1 (by decide),
    ((getEffectSlot_valid_group demoClasses demoManager
      (some "[EffectRack1_EffectUnit9_Effect1]")).2 "[EffectRack1".data "EffectUnit9".data
      ["Effect1]".data] (by decide)).2.2 (by decide),
    ((getEffectSlot_valid_group demoClasses demoManager
      (some "[OutputEffectRack_[Master]")).2 "[OutputEffectRack".data "[Master]".data
      [] (by decide)).2.1 rfl
      { group := some "[OutputEffectRack_[Master]]", channels := [] } (by decide)⟩

/-- C6 fails as stated: a group string without the separator splits into one
part, and `getEffectSlot` then indexes the part list out of range instead of
returning the null reference; the same happens for the empty and the null
string. -/
theorem getEffectSlot_malformed_counterexample :
    getEffectSlot demoClasses demoManager (some "[EffectRack1]") =
        Except.error Fault.indexOutOfRange ∧
      getEffectSlot demoClasses demoManager (some "") = Except.error Fault.indexOutOfRange ∧
      getEffectSlot demoClasses demoManager none = Except.error Fault.indexOutOfRange := by
  refine ⟨by decide, by decide, by decide⟩

/-- C8 (the code at the failing inputs): the guard of
`getStandardEffectChainSlot` never fires, so for every unit number below 0 or
not below the number of standard chain slots the list is indexed out of range
instead of a null reference being returned; for a unit number in range the
chain slot at that index is returned. -/
theorem getStandardEffectChainSlot_out_of_range {P C S : Type} (m : EffectsManager P C S)
    (unitNumber : Int) :
    ((unitNumber < 0 ∨ (m.m_standardEffectChainSlots.length : Int) ≤ unitNumber) →
      getStandardEffectChainSlot m unitNumber = Except.error Fault.indexOutOfRange) ∧
    (∀ (k : Nat) (hk : k < m.m_standardEffectChainSlots.length), unitNumber = (k : Int) →
      getStandardEffectChainSlot m unitNumber =
        Except.ok (some (m.m_standardEffectChainSlots.get ⟨k, hk⟩))) := by
  have hguard : VERIFY_OR_DEBUG_ASSERT (decide (0 ≤ unitNumber) ||
      decide (unitNumber < (m.m_standardEffectChainSlots.length : Int))) = false := by
    by_cases h0 : 0 ≤ unitNumber
    · simp [VERIFY_OR_DEBUG_ASSERT, h0]
    · have : unitNumber < (m.m_standardEffectChainSlots.length : Int) := by omega
      simp [VERIFY_OR_DEBUG_ASSERT, this]
  constructor
  · intro hout
    unfold getStandardEffectChainSlot
    simp only [hguard, Bool.false_eq_true, if_false]
    rw [QList.at_error _ _ hout]
    rfl
  · intro k hk hu
    unfold getStandardEffectChainSlot
    simp only [hguard, Bool.false_eq_true, if_false]
    rw [hu, QList.at_ok _ k hk]
    rfl

/-- Witness for C8: with four standard chain slots, unit numbers -1 and 4 run
into the out-of-range access and unit number 3 gives the last chain slot. -/
theorem getStandardEffectChainSlot_out_of_range_witness :
    getStandardEffectChainSlot demoManager (-1) = Except.error Fault.indexOutOfRange ∧
      getStandardEffectChainSlot demoManager 4 = Except.error Fault.indexOutOfRange ∧
      getStandardEffectChainSlot demoManager 3 = Except.ok (some 3) :=
  ⟨(getStandardEffectChainSlot_out_of_range demoManager (-1)).1 (by decide),
    (getStandardEffectChainSlot_out_of_range demoManager 4).1 (by decide),
    (getStandardEffectChainSlot_out_of_range demoManager 3).2 3 (by decide) (by decide)⟩

/-! ## Adding chain slots: results -/

theorem addEqualizerEffectChainSlot_allocates {P C S E : Type} (K : ChainSlotClasses C S E)
    (m : EffectsManager P C S) (deckGroupName : QString)
    (hkey : QHash.contains m.m_equalizerEffectChainSlots (K.formatEqualizer deckGroupName) =
      false) :
    (addEqualizerEffectChainSlot K m deckGroupName).chainSlotObjects.length =
      m.chainSlotObjects.length + 1 := by
  unfold addEqualizerEffectChainSlot
  simp [VERIFY_OR_DEBUG_ASSERT, hkey, allocChainSlot]

theorem addQuickEffectChainSlot_allocates {P C S E : Type} (K : ChainSlotClasses C S E)
    (m : EffectsManager P C S) (deckGroupName : QString)
    (hkey : QHash.contains m.m_quickEffectChainSlots (K.formatQuick deckGroupName) = false) :
    (addQuickEffectChainSlot K m deckGroupName).chainSlotObjects.length =
      m.chainSlotObjects.length + 1 := by
  unfold addQuickEffectChainSlot
  simp [VERIFY_OR_DEBUG_ASSERT, hkey, allocChainSlot]

/-- C9 (the code at the failing input): after `addEqualizerEffectChainSlot` for
the deck group `[Channel1]`, a second call with the same deck group does not
leave the state alone: it allocates a second chain slot (address 1) and stores
it for the deck in the per-deck container and for the chain group in the
by-group container, in place of the first one (address 0).  The same holds for
`addQuickEffectChainSlot`.  The sibling `addStandardEffectChainSlots`, whose
guard looks into the by-group container, is a no-op when repeated. -/
theorem addEqualizerEffectChainSlot_twice :
    (addEqualizerEffectChainSlot demoClasses demoEqualizerManager (some "[Channel1]") ≠
        demoEqualizerManager ∧
      demoEqualizerManager.chainSlotObjects.length = 1 ∧
      (addEqualizerEffectChainSlot demoClasses demoEqualizerManager
        (some "[Channel1]")).chainSlotObjects.length = 2 ∧
      QHash.value demoEqualizerManager.m_equalizerEffectChainSlots (some "[Channel1]") =
        some 0 ∧
      QHash.value (addEqualizerEffectChainSlot demoClasses demoEqualizerManager
        (some "[Channel1]")).m_equalizerEffectChainSlots (some "[Channel1]") = some 1 ∧
      QHash.value (addEqualizerEffectChainSlot demoClasses demoEqualizerManager
        (some "[Channel1]")).m_effectChainSlotsByGroup
          (some "[EqualizerRack1_[Channel1]]") = some 1) ∧
    (addQuickEffectChainSlot demoClasses demoQuickManager (some "[Channel1]") ≠
        demoQuickManager ∧
      (addQuickEffectChainSlot demoClasses demoQuickManager
        (some "[Channel1]")).chainSlotObjects.length = 2 ∧
      QHash.value demoQuickManager.m_quickEffectChainSlots (some "[Channel1]") = some 0 ∧
      QHash.value (addQuickEffectChainSlot demoClasses demoQuickManager
        (some "[Channel1]")).m_quickEffectChainSlots (some "[Channel1]") = some 1 ∧
      QHash.value (addQuickEffectChainSlot demoClasses demoQuickManager
        (some "[Channel1]")).m_effectChainSlotsByGroup
          (some "[QuickEffectRack1_[Channel1]]") = some 1) ∧
    addStandardEffectChainSlots demoClasses
        (addStandardEffectChainSlots demoClasses
          (EffectsManager.init Nat Nat DemoChainSlot)) =
      addStandardEffectChainSlots demoClasses (EffectsManager.init Nat Nat DemoChainSlot) := by
  refine ⟨⟨by decide, by decide, by decide, by decide, by decide, by decide⟩,
    ⟨by decide, by decide, by decide, by decide, by decide⟩, by decide⟩

/-! ## The delay buffer of the echo effect: results -/

theorem SampleBuffer.size_alloc {σ : Type} (fresh : Nat → σ) (size : Nat) :
    (SampleBuffer.alloc fresh size).size = size := by
  simp [SampleBuffer.alloc, SampleBuffer.size]

/-- C10: after `audioParametersChanged` with sample rate r and channel count c
the delay buffer holds exactly kMaxDelaySeconds * r * c = 3 * r * c samples,
whatever the state was before; so after any sequence of format changes the
capacity is the one given by the last of them. -/
theorem audioParametersChanged_capacity {σ : Type} (fresh : Nat → σ)
    (s : EchoGroupState σ) (bufferParameters : EngineParameters)
    (earlier : List ((Nat → σ) × EngineParameters)) :
    (EchoGroupState.audioParametersChanged fresh s bufferParameters).delay_buf.size =
        kMaxDelaySeconds * bufferParameters.sampleRate * bufferParameters.channelCount ∧
      (EchoGroupState.audioParametersChanged fresh s bufferParameters).delay_buf.size =
        3 * bufferParameters.sampleRate * bufferParameters.channelCount ∧
      (applyFormatChanges s (earlier ++ [(fresh, bufferParameters)])).delay_buf.size =
        3 * bufferParameters.sampleRate * bufferParameters.channelCount := by
  refine ⟨?_, ?_, ?_⟩
  · simp [EchoGroupState.audioParametersChanged, SampleBuffer.size_alloc]
  · simp [EchoGroupState.audioParametersChanged, SampleBuffer.size_alloc, kMaxDelaySeconds]
  · simp [applyFormatChanges, List.foldl_append, EchoGroupState.audioParametersChanged,
      SampleBuffer.size_alloc, kMaxDelaySeconds]

/-! ## Resetting the echo state: results -/

theorem SampleBuffer.clear_zero {σ : Type} [Zero σ] (b : SampleBuffer σ) :
    (∀ x ∈ b.clear.data, x = 0) ∧ b.clear.size = b.size := by
  constructor
  · intro x hx
    simp only [SampleBuffer.clear, List.mem_map] at hx
    rcases hx with ⟨_, _, hx⟩
    exact hx.symm
  · simp [SampleBuffer.clear, SampleBuffer.size]

/-- C11: after `clear` every sample of the delay buffer is 0, the continuity
members `prev_send`, `prev_feedback`, `prev_delay_samples`, `write_position`
and `ping_pong` are 0, and the capacity of the buffer is the one from before;
a state coming out of the constructor satisfies the same, with the capacity
the constructor allocated. -/
theorem EchoGroupState.clear_resets {σ : Type} [Zero σ] (s : EchoGroupState σ)
    (fresh : Nat → σ) (uninit : EchoGroupState σ) (bufferParameters : EngineParameters) :
    ((∀ x ∈ s.clear.delay_buf.data, x = 0) ∧
      s.clear.prev_send = 0 ∧ s.clear.prev_feedback = 0 ∧
      s.clear.prev_delay_samples = 0 ∧ s.clear.write_position = 0 ∧
      s.clear.ping_pong = 0 ∧
      s.clear.delay_buf.size = s.delay_buf.size) ∧
    ((∀ x ∈ (EchoGroupState.construct fresh uninit bufferParameters).delay_buf.data, x = 0) ∧
      (EchoGroupState.construct fresh uninit bufferParameters).prev_send = 0 ∧
      (EchoGroupState.construct fresh uninit bufferParameters).prev_feedback = 0 ∧
      (EchoGroupState.construct fresh uninit bufferParameters).prev_delay_samples = 0 ∧
      (EchoGroupState.construct fresh uninit bufferParameters).write_position = 0 ∧
      (EchoGroupState.construct fresh uninit bufferParameters).ping_pong = 0 ∧
      (EchoGroupState.construct fresh uninit bufferParameters).delay_buf.size =
        kMaxDelaySeconds * bufferParameters.sampleRate * bufferParameters.channelCount) := by
  refine ⟨⟨?_, rfl, rfl, rfl, rfl, rfl, ?_⟩, ⟨?_, rfl, rfl, rfl, rfl, rfl, ?_⟩⟩
  · exact (SampleBuffer.clear_zero s.delay_buf).1
  · exact (SampleBuffer.clear_zero s.delay_buf).2
  · exact (SampleBuffer.clear_zero _).1
  · show (SampleBuffer.alloc fresh _).clear.size = _
    rw [(SampleBuffer.clear_zero _).2, SampleBuffer.size_alloc]

/-! ## Teardown of the manager: results -/

/-- C14 (as amended): the sequence of actions of the destructor is exactly
`startShutdownProcess`, `saveEffectsXml`, the release of the equalizer, quick,
standard, output and by-group chain slot containers in this order, and
`processEffectsResponses`.  So `startShutdownProcess` is the first action, the
XML is saved before any release, every release of a chain slot container
comes after `startShutdownProcess` and before `processEffectsResponses`, which
is the last action, and the destructor leaves all chain slot containers
empty. -/
theorem destructor_order {P C S : Type} (m : EffectsManager P C S) :
    (EffectsManager.destructor m).2 =
      [ TeardownAction.startShutdownProcess,
        TeardownAction.saveEffectsXml,
        TeardownAction.clearEqualizerEffectChainSlots,
        TeardownAction.clearQuickEffectChainSlots,
        TeardownAction.clearStandardEffectChainSlots,
        TeardownAction.clearOutputEffectChainSlot,
        TeardownAction.clearEffectChainSlotsByGroup,
        TeardownAction.processEffectsResponses ] ∧
    (EffectsManager.destructor m).2.head? = some TeardownAction.startShutdownProcess ∧
    (EffectsManager.destructor m).2.getLast? = some TeardownAction.processEffectsResponses ∧
    occursBefore (EffectsManager.destructor m).2 TeardownAction.startShutdownProcess
      TeardownAction.saveEffectsXml ∧
    (∀ release ∈ chainSlotReleases,
      occursBefore (EffectsManager.destructor m).2 TeardownAction.startShutdownProcess release ∧
      occursBefore (EffectsManager.destructor m).2 TeardownAction.saveEffectsXml release ∧
      occursBefore (EffectsManager.destructor m).2 release
        TeardownAction.processEffectsResponses) ∧
    (occursBefore (EffectsManager.destructor m).2 TeardownAction.clearEqualizerEffectChainSlots
        TeardownAction.clearQuickEffectChainSlots ∧
      occursBefore (EffectsManager.destructor m).2 TeardownAction.clearQuickEffectChainSlots
        TeardownAction.clearStandardEffectChainSlots ∧
      occursBefore (EffectsManager.destructor m).2 TeardownAction.clearStandardEffectChainSlots
        TeardownAction.clearOutputEffectChainSlot ∧
      occursBefore (EffectsManager.destructor m).2 TeardownAction.clearOutputEffectChainSlot
        TeardownAction.clearEffectChainSlotsByGroup) ∧
    (EffectsManager.destructor m).1.m_equalizerEffectChainSlots = [] ∧
    (EffectsManager.destructor m).1.m_quickEffectChainSlots = [] ∧
    (EffectsManager.destructor m).1.m_standardEffectChainSlots = [] ∧
    (EffectsManager.destructor m).1.m_outputEffectChainSlot = none ∧
    (EffectsManager.destructor m).1.m_effectChainSlotsByGroup = [] := by
  have htrace : (EffectsManager.destructor m).2 = destructorActions := rfl
  rw [htrace]
  refine ⟨rfl, rfl, rfl, by decide, by decide, by decide, rfl, rfl, rfl, rfl, rfl⟩

/-- C14 fails as stated: in the destructor run on the set-up manager the
draining of the responses does not come before the release of the chain slot
containers; each container is released before `processEffectsResponses`. -/
theorem destructor_drain_counterexample :
    (∀ release ∈ chainSlotReleases,
      ¬ occursBefore (EffectsManager.destructor demoManager).2
        TeardownAction.processEffectsResponses release) ∧
    occursBefore (EffectsManager.destructor demoManager).2
      TeardownAction.clearEqualizerEffectChainSlots TeardownAction.processEffectsResponses := by
  refine ⟨?_, ?_⟩
  · show ∀ release ∈ chainSlotReleases,
      ¬ occursBefore destructorActions TeardownAction.processEffectsResponses release
    decide
  · show occursBefore destructorActions TeardownAction.clearEqualizerEffectChainSlots
      TeardownAction.processEffectsResponses
    decide

end Mixxx
